import Mathlib

/-!
Shallow embedding of the byte-oriented parser-combinator library in
`src/common/parser.rs`, together with theorems settling the spec claims.

Bytes are modelled as `Nat`, byte slices as `List Nat` (only equality and
predicates are applied to bytes, never arithmetic).  A parser is a pure
function from an input to `Except` of an error string or a pair of the
remaining input and a produced value, mirroring
`Result<(ParseInput, T), ParseError>`.

The two source functions whose bodies contain unbounded `while` loops
(`one_or_more` and `take_while`) are modelled with an explicit fuel
parameter; a result of `none` means the Rust loop would not have finished
within that many iterations.  All other functions are translated directly.
-/

namespace Parsing

abbrev ParseInput := List Nat

abbrev ParseError := String

abbrev ParseResult (T : Type) := Except ParseError (ParseInput × T)

abbrev Parser (T : Type) := ParseInput → ParseResult T

/-- `empty`: succeeds if input is empty, otherwise fails. -/
def empty : Parser Unit := fun input =>
  if input.isEmpty then .ok (input, ()) else .error "not empty"

/-- `not`: executes a parser, failing if the parser succeeds. -/
def not (parser : Parser T) : Parser Unit := fun input =>
  match parser input with
  | .ok _ => .error "parser succeeded"
  | .error _ => .ok (input, ())

/-- `not_empty`: succeeds if input is not empty, implemented as `not(empty)`. -/
def not_empty : Parser Unit := Parsing.not empty

/-- `maybe`: executes a parser, returning `some value` if it succeeds and
`none` (with the original input) if it fails. -/
def maybe (parser : Parser T) : Parser (Option T) := fun input =>
  match parser input with
  | .ok (input', value) => .ok (input', some value)
  | .error _ => .ok (input, none)

/-- `peek`: executes the parser without consuming the input. -/
def peek (parser : Parser T) : Parser T := fun input =>
  match parser input with
  | .ok (_, value) => .ok (input, value)
  | .error e => .error e

/-- `map`: maps a parser's result. -/
def map (parser : Parser T) (f : T → U) : Parser U := fun input =>
  match parser input with
  | .ok (input', value) => .ok (input', f value)
  | .error e => .error e

/-- `fully_consumed`: succeeds if the parser fully consumes the input. -/
def fully_consumed (parser : Parser T) : Parser T := fun input =>
  match parser input with
  | .ok (input', value) =>
      match empty input' with
      | .ok (input'', _) => .ok (input'', value)
      | .error e => .error e
  | .error e => .error e

/-- `divided`: executes three parsers in a row, failing if any fails, and
returns the first and third parsers' results. -/
def divided (left : Parser T1) (middle : Parser T2) (right : Parser T3) :
    Parser (T1 × T3) := fun input =>
  match left input with
  | .error e => .error e
  | .ok (input, v1) =>
      match middle input with
      | .error e => .error e
      | .ok (input, _) =>
          match right input with
          | .error e => .error e
          | .ok (input, v3) => .ok (input, (v1, v3))

/-- `prefixed`: executes two parsers in a row, failing if either fails, and
returns the second parser's result. -/
def prefixed (pfx : Parser T1) (parser : Parser T2) : Parser T2 := fun input =>
  match pfx input with
  | .error e => .error e
  | .ok (input, _) =>
      match parser input with
      | .error e => .error e
      | .ok (input, value) => .ok (input, value)

/-- `suffixed`: executes two parsers in a row, failing if either fails, and
returns the first parser's result. -/
def suffixed (parser : Parser T1) (sfx : Parser T2) : Parser T1 := fun input =>
  match parser input with
  | .error e => .error e
  | .ok (input, value) =>
      match sfx input with
      | .error e => .error e
      | .ok (input, _) => .ok (input, value)

/-- `take(cnt)`: takes `cnt` bytes, failing if `cnt == 0` or if not enough
bytes are available. -/
def take (cnt : Nat) : Parser ParseInput := fun input =>
  if cnt = 0 then .error "take(cnt) cannot have cnt == 0"
  else if input.length < cnt then .error "take(cnt) not enough bytes"
  else .ok (input.drop cnt, input.take cnt)

/-- `bytes(literal)`: parses multiple bytes, failing if they do not match the
literal or there are not enough bytes.  The empty-input check comes first,
then the length check, then the byte-for-byte comparison. -/
def bytes (bs : List Nat) : Parser ParseInput := fun input =>
  if input.isEmpty then .error "Empty input"
  else if input.length < bs.length then .error "Not enough bytes"
  else if bs.isPrefixOf input then .ok (input.drop bs.length, input.take bs.length)
  else .error "Wrong bytes"

/-- `byte(b)`: parses a single byte, failing if it does not match. -/
def byte (b : Nat) : Parser Nat := fun input =>
  if input.isEmpty then .error "Empty input"
  else if [b].isPrefixOf input then .ok (input.drop 1, b)
  else .error "Wrong byte"

/-- Index of the first element satisfying the predicate, mirroring
`input.iter().enumerate().find(..)`. -/
def firstIdx? (predicate : Nat → Bool) : List Nat → Option Nat
  | [] => none
  | b :: t => if predicate b then some 0 else (firstIdx? predicate t).map (· + 1)

/-- `take_until_byte(predicate)`: splits at the first byte satisfying the
predicate (`input.iter().enumerate().find(..)`); the value is the prefix
before the match and the remaining input starts at the match; with no match,
the whole input is the value and the remaining input is empty.  Never fails. -/
def take_until_byte (predicate : Nat → Bool) : Parser ParseInput := fun input =>
  match firstIdx? predicate input with
  | some i => .ok (input.drop i, input.take i)
  | none => .ok ([], input)

/-- `take_until_byte_1`: same as `take_until_byte` but fails if the value is
empty. -/
def take_until_byte_1 (predicate : Nat → Bool) : Parser ParseInput := fun input =>
  match take_until_byte predicate input with
  | .error e => .error e
  | .ok (input', value) =>
      if value.isEmpty then .error "did not consume 1 byte"
      else .ok (input', value)

/-- Index of the last element satisfying the predicate, mirroring
`input.iter().enumerate().rev().find(..)`. -/
def rfindIdx? (predicate : Nat → Bool) : List Nat → Option Nat
  | [] => none
  | b :: t =>
      match rfindIdx? predicate t with
      | some j => some (j + 1)
      | none => if predicate b then some 0 else none

/-- `rtake_until_byte(predicate)`: splits at the last byte satisfying the
predicate; the value is `input[..i]` and the remaining input `input[i..]`,
exactly as in the source; with no match, the whole input is the value and the
remaining input is empty.  Never fails. -/
def rtake_until_byte (predicate : Nat → Bool) : Parser ParseInput := fun input =>
  match rfindIdx? predicate input with
  | some i => .ok (input.drop i, input.take i)
  | none => .ok ([], input)

/-- `rtake_until_byte_1`: same as `rtake_until_byte` but fails if the value is
empty. -/
def rtake_until_byte_1 (predicate : Nat → Bool) : Parser ParseInput := fun input =>
  match rtake_until_byte predicate input with
  | .error e => .error e
  | .ok (input', value) =>
      if value.isEmpty then .error "did not consume 1 byte"
      else .ok (input', value)

/-- The `while let` loop inside `one_or_more`: repeatedly applies the parser
to the shrinking input, accumulating the produced values in order; on the
first failure it stops, keeping the pre-failure input.  `fuel` bounds the
number of iterations; `none` means the Rust loop would still be running. -/
def one_or_more_loop (parser : Parser T) :
    Nat → ParseInput → List T → Option (ParseInput × List T)
  | 0, _, _ => none
  | fuel + 1, input, results =>
      match parser input with
      | .ok (input', value) => one_or_more_loop parser fuel input' (results ++ [value])
      | .error _ => some (input, results)

/-- `one_or_more`: repeatedly applies the parser until a failure, failing
overall if no application succeeded. -/
def one_or_more (fuel : Nat) (parser : Parser T) :
    ParseInput → Option (ParseResult (List T)) := fun input =>
  match one_or_more_loop parser fuel input [] with
  | none => none
  | some (next, results) =>
      if results.isEmpty then some (.error "Parser failed to suceed once")
      else some (.ok (next, results))

/-- `maybe` lifted to fuel-indexed parsers (used by `zero_or_more`, whose
source is literally `maybe(one_or_more(parser))`). -/
def maybeFuel (p : ParseInput → Option (ParseResult T)) :
    ParseInput → Option (ParseResult (Option T)) := fun input =>
  match p input with
  | none => none
  | some (.ok (input', value)) => some (.ok (input', some value))
  | some (.error _) => some (.ok (input, none))

/-- `zero_or_more`: `maybe(one_or_more(parser))` followed by
`unwrap_or_default()` on the optional collection. -/
def zero_or_more (fuel : Nat) (parser : Parser T) :
    ParseInput → Option (ParseResult (List T)) := fun input =>
  match maybeFuel (one_or_more fuel parser) input with
  | none => none
  | some (.error e) => some (.error e)
  | some (.ok (input', results)) => some (.ok (input', results.getD []))

/-- The `while i < len` loop inside `take_while`: probes the parser at offset
`i`, advances `i` by the number of bytes the probe consumed
(`available_len - remaining.len()`), and stops at the first probe failure or
when the input is exhausted, returning the final offset.  `fuel` bounds the
number of iterations. -/
def take_while_loop (parser : Parser T) (input : ParseInput) : Nat → Nat → Option Nat
  | 0, _ => none
  | fuel + 1, i =>
      if i < input.length then
        match parser (input.drop i) with
        | .ok (remaining, _) =>
            take_while_loop parser input fuel (i + ((input.length - i) - remaining.length))
        | .error _ => some i
      else some i

/-- `take_while`: takes until the parser fails.  Fails on empty input;
otherwise splits the input at the offset the loop reached. -/
def take_while (fuel : Nat) (parser : Parser T) :
    ParseInput → Option (ParseResult ParseInput) := fun input =>
  if input.isEmpty then some (.error "Empty input")
  else
    match take_while_loop parser input fuel 0 with
    | none => none
    | some i =>
        if i = input.length then some (.ok ([], input))
        else if i = 0 then some (.ok (input, []))
        else some (.ok (input.drop i, input.take i))

/-- `take_while_1`: same as `take_while`, but fails if it does not consume at
least one byte. -/
def take_while_1 (fuel : Nat) (parser : Parser T) :
    ParseInput → Option (ParseResult ParseInput) := fun input =>
  match take_while fuel parser input with
  | none => none
  | some (.error e) => some (.error e)
  | some (.ok (input', value)) =>
      if value.isEmpty then some (.error "did not consume 1 byte")
      else some (.ok (input', value))

/-- A parser satisfies the suffix invariant when, on every success, the
remaining input it reports is a byte-identical suffix of its argument and is
no longer than it. -/
def Good (p : Parser T) : Prop :=
  ∀ i r v, p i = .ok (r, v) → r <:+ i ∧ r.length ≤ i.length

/-- The suffix invariant for the fuel-indexed (looping) parsers. -/
def GoodFuel (p : ParseInput → Option (ParseResult T)) : Prop :=
  ∀ i r v, p i = some (.ok (r, v)) → r <:+ i ∧ r.length ≤ i.length

/-- A parser makes strict progress when every successful application returns
a remaining input strictly shorter than its argument. -/
def StrictProgress (p : Parser T) : Prop :=
  ∀ i r v, p i = .ok (r, v) → r.length < i.length

/-! ## Helper lemmas about the index-search helpers -/

theorem firstIdx?_eq_none (q : Nat → Bool) (l : List Nat)
    (h : ∀ b ∈ l, q b = false) : firstIdx? q l = none := by
  induction l with
  | nil => rfl
  | cons a t ih =>
      simp [firstIdx?, h a (by simp), ih fun b hb => h b (by simp [hb])]

theorem firstIdx?_eq_some (q : Nat → Bool) (l : List Nat) (k : Nat)
    (hpre : ∀ b ∈ l.take k, q b = false)
    (hk : ∃ b t, l.drop k = b :: t ∧ q b = true) :
    firstIdx? q l = some k := by
  induction l generalizing k with
  | nil => obtain ⟨b, t, hbt, _⟩ := hk; simp at hbt
  | cons a l ih =>
      cases k with
      | zero =>
          obtain ⟨b, t, hbt, hb⟩ := hk
          obtain ⟨rfl, rfl⟩ : a = b ∧ l = t := by simpa using hbt
          simp [firstIdx?, hb]
      | succ k =>
          have ha : q a = false := hpre a (by simp)
          have ih' : firstIdx? q l = some k :=
            ih k (fun b hb => hpre b (by simp [hb])) (by simpa using hk)
          simp [firstIdx?, ha, ih']

theorem rfindIdx?_eq_none (q : Nat → Bool) (l : List Nat)
    (h : ∀ b ∈ l, q b = false) : rfindIdx? q l = none := by
  induction l with
  | nil => rfl
  | cons a t ih =>
      simp [rfindIdx?, h a (by simp), ih fun b hb => h b (by simp [hb])]

theorem rfindIdx?_eq_some (q : Nat → Bool) (l : List Nat) (k : Nat)
    (hk : ∃ b t, l.drop k = b :: t ∧ q b = true)
    (hpost : ∀ b ∈ l.drop (k + 1), q b = false) :
    rfindIdx? q l = some k := by
  induction l generalizing k with
  | nil => obtain ⟨b, t, hbt, _⟩ := hk; simp at hbt
  | cons a l ih =>
      cases k with
      | zero =>
          obtain ⟨b, t, hbt, hb⟩ := hk
          obtain ⟨rfl, rfl⟩ : a = b ∧ l = t := by simpa using hbt
          have hnone : rfindIdx? q l = none := rfindIdx?_eq_none q l (by simpa using hpost)
          simp [rfindIdx?, hnone, hb]
      | succ k =>
          have ih' : rfindIdx? q l = some k :=
            ih k (by simpa using hk) (by simpa using hpost)
          simp [rfindIdx?, ih']

/-! ## Suffix-invariant helper lemmas -/

theorem suffix_good {p : Parser T} (h : ∀ i r v, p i = .ok (r, v) → r <:+ i) :
    Good p :=
  fun i r v hh => ⟨h i r v hh, (h i r v hh).length_le⟩

theorem suffix_goodFuel {p : ParseInput → Option (ParseResult T)}
    (h : ∀ i r v, p i = some (.ok (r, v)) → r <:+ i) : GoodFuel p :=
  fun i r v hh => ⟨h i r v hh, (h i r v hh).length_le⟩

theorem empty_good : Good empty := by
  apply suffix_good
  intro i r v h
  unfold empty at h
  split at h <;> simp_all

theorem not_good (p : Parser T) : Good (Parsing.not p) := by
  apply suffix_good
  intro i r v h
  unfold Parsing.not at h
  split at h <;> simp_all

theorem not_empty_good : Good not_empty :=
  not_good empty

theorem peek_good (p : Parser T) : Good (peek p) := by
  apply suffix_good
  intro i r v h
  unfold peek at h
  split at h <;> simp_all

theorem maybe_good (p : Parser T) (hp : Good p) : Good (maybe p) := by
  apply suffix_good
  intro i r v h
  unfold maybe at h
  split at h
  · rename_i input' value heq
    simp only [Except.ok.injEq, Prod.mk.injEq] at h
    exact h.1 ▸ (hp i input' value heq).1
  · simp_all

theorem map_good (p : Parser T) (f : T → U) (hp : Good p) : Good (map p f) := by
  apply suffix_good
  intro i r v h
  unfold map at h
  split at h
  · rename_i input' value heq
    simp only [Except.ok.injEq, Prod.mk.injEq] at h
    exact h.1 ▸ (hp i input' value heq).1
  · simp_all

theorem fully_consumed_good (p : Parser T) (hp : Good p) :
    Good (fully_consumed p) := by
  apply suffix_good
  intro i r v h
  unfold fully_consumed at h
  split at h
  · rename_i input' value heq
    split at h
    · rename_i input'' u heq2
      unfold empty at heq2
      split at heq2
      · simp only [Except.ok.injEq, Prod.mk.injEq] at h heq2
        exact h.1 ▸ heq2.1 ▸ (hp i input' value heq).1
      · simp_all
    · simp_all
  · simp_all

theorem prefixed_good (p1 : Parser T1) (p2 : Parser T2)
    (hp1 : Good p1) (hp2 : Good p2) : Good (prefixed p1 p2) := by
  apply suffix_good
  intro i r v h
  unfold prefixed at h
  split at h
  · simp_all
  · rename_i i1 v1 heq1
    split at h
    · simp_all
    · rename_i i2 v2 heq2
      simp only [Except.ok.injEq, Prod.mk.injEq] at h
      exact h.1 ▸ ((hp2 i1 i2 v2 heq2).1.trans (hp1 i i1 v1 heq1).1)

theorem suffixed_good (p1 : Parser T1) (p2 : Parser T2)
    (hp1 : Good p1) (hp2 : Good p2) : Good (suffixed p1 p2) := by
  apply suffix_good
  intro i r v h
  unfold suffixed at h
  split at h
  · simp_all
  · rename_i i1 v1 heq1
    split at h
    · simp_all
    · rename_i i2 v2 heq2
      simp only [Except.ok.injEq, Prod.mk.injEq] at h
      exact h.1 ▸ ((hp2 i1 i2 v2 heq2).1.trans (hp1 i i1 v1 heq1).1)

theorem divided_good (p1 : Parser T1) (p2 : Parser T2) (p3 : Parser T3)
    (hp1 : Good p1) (hp2 : Good p2) (hp3 : Good p3) :
    Good (divided p1 p2 p3) := by
  apply suffix_good
  intro i r v h
  unfold divided at h
  split at h
  · simp_all
  · rename_i i1 v1 heq1
    split at h
    · simp_all
    · rename_i i2 v2 heq2
      split at h
      · simp_all
      · rename_i i3 v3 heq3
        simp only [Except.ok.injEq, Prod.mk.injEq] at h
        exact h.1 ▸
          (((hp3 i2 i3 v3 heq3).1.trans (hp2 i1 i2 v2 heq2).1).trans
            (hp1 i i1 v1 heq1).1)

theorem take_good (n : Nat) : Good (take n) := by
  apply suffix_good
  intro i r v h
  unfold take at h
  split at h
  · simp_all
  · split at h
    · simp_all
    · simp only [Except.ok.injEq, Prod.mk.injEq] at h
      exact h.1 ▸ List.drop_suffix n i

theorem bytes_good (bs : List Nat) : Good (Parsing.bytes bs) := by
  apply suffix_good
  intro i r v h
  unfold Parsing.bytes at h
  split at h
  · simp_all
  · split at h
    · simp_all
    · split at h
      · simp only [Except.ok.injEq, Prod.mk.injEq] at h
        exact h.1 ▸ List.drop_suffix bs.length i
      · simp_all

theorem byte_good (b : Nat) : Good (byte b) := by
  apply suffix_good
  intro i r v h
  unfold byte at h
  split at h
  · simp_all
  · split at h
    · simp only [Except.ok.injEq, Prod.mk.injEq] at h
      exact h.1 ▸ List.drop_suffix 1 i
    · simp_all

theorem take_until_byte_good (q : Nat → Bool) : Good (take_until_byte q) := by
  apply suffix_good
  intro i r v h
  unfold take_until_byte at h
  split at h
  · simp only [Except.ok.injEq, Prod.mk.injEq] at h
    exact h.1 ▸ List.drop_suffix _ i
  · simp only [Except.ok.injEq, Prod.mk.injEq] at h
    exact h.1 ▸ List.nil_suffix

theorem take_until_byte_1_good (q : Nat → Bool) : Good (take_until_byte_1 q) := by
  apply suffix_good
  intro i r v h
  unfold take_until_byte_1 at h
  split at h
  · simp_all
  · rename_i i1 v1 heq1
    split at h
    · simp_all
    · simp only [Except.ok.injEq, Prod.mk.injEq] at h
      exact h.1 ▸ (take_until_byte_good q i i1 v1 heq1).1

theorem rtake_until_byte_good (q : Nat → Bool) : Good (rtake_until_byte q) := by
  apply suffix_good
  intro i r v h
  unfold rtake_until_byte at h
  split at h
  · simp only [Except.ok.injEq, Prod.mk.injEq] at h
    exact h.1 ▸ List.drop_suffix _ i
  · simp only [Except.ok.injEq, Prod.mk.injEq] at h
    exact h.1 ▸ List.nil_suffix

theorem rtake_until_byte_1_good (q : Nat → Bool) : Good (rtake_until_byte_1 q) := by
  apply suffix_good
  intro i r v h
  unfold rtake_until_byte_1 at h
  split at h
  · simp_all
  · rename_i i1 v1 heq1
    split at h
    · simp_all
    · simp only [Except.ok.injEq, Prod.mk.injEq] at h
      exact h.1 ▸ (rtake_until_byte_good q i i1 v1 heq1).1

theorem take_while_good (fuel : Nat) (p : Parser T) :
    GoodFuel (take_while fuel p) := by
  apply suffix_goodFuel
  intro i r v h
  unfold take_while at h
  split at h
  · simp_all
  · split at h
    · simp_all
    · rename_i k heq
      split at h
      · simp only [Option.some.injEq, Except.ok.injEq, Prod.mk.injEq] at h
        exact h.1 ▸ List.nil_suffix
      · split at h
        · simp only [Option.some.injEq, Except.ok.injEq, Prod.mk.injEq] at h
          exact h.1 ▸ List.suffix_refl i
        · simp only [Option.some.injEq, Except.ok.injEq, Prod.mk.injEq] at h
          exact h.1 ▸ List.drop_suffix k i

theorem take_while_1_good (fuel : Nat) (p : Parser T) :
    GoodFuel (take_while_1 fuel p) := by
  apply suffix_goodFuel
  intro i r v h
  unfold take_while_1 at h
  split at h
  · simp_all
  · simp_all
  · rename_i i1 v1 heq1
    split at h
    · simp_all
    · simp only [Option.some.injEq, Except.ok.injEq, Prod.mk.injEq] at h
      exact h.1 ▸ (take_while_good fuel p i i1 v1 heq1).1

theorem one_or_more_loop_suffix (p : Parser T) (hp : Good p) :
    ∀ fuel input acc next results,
      one_or_more_loop p fuel input acc = some (next, results) →
      next <:+ input := by
  intro fuel
  induction fuel with
  | zero => intro input acc next results h; simp [one_or_more_loop] at h
  | succ fuel ih =>
      intro input acc next results h
      unfold one_or_more_loop at h
      split at h
      · rename_i input' value heq
        exact (ih input' _ next results h).trans (hp input input' value heq).1
      · simp only [Option.some.injEq, Prod.mk.injEq] at h
        exact h.1 ▸ List.suffix_refl input

theorem one_or_more_good (fuel : Nat) (p : Parser T) (hp : Good p) :
    GoodFuel (one_or_more fuel p) := by
  apply suffix_goodFuel
  intro i r v h
  unfold one_or_more at h
  split at h
  · simp_all
  · rename_i next results heq
    split at h
    · simp_all
    · simp only [Option.some.injEq, Except.ok.injEq, Prod.mk.injEq] at h
      exact h.1 ▸ one_or_more_loop_suffix p hp fuel i [] next results heq

theorem maybeFuel_good (p : ParseInput → Option (ParseResult T))
    (hp : GoodFuel p) : GoodFuel (maybeFuel p) := by
  apply suffix_goodFuel
  intro i r v h
  unfold maybeFuel at h
  split at h
  · simp_all
  · rename_i input' value heq
    simp only [Option.some.injEq, Except.ok.injEq, Prod.mk.injEq] at h
    exact h.1 ▸ (hp i input' value heq).1
  · simp only [Option.some.injEq, Except.ok.injEq, Prod.mk.injEq] at h
    exact h.1 ▸ List.suffix_refl i

theorem zero_or_more_good (fuel : Nat) (p : Parser T) (hp : Good p) :
    GoodFuel (zero_or_more fuel p) := by
  apply suffix_goodFuel
  intro i r v h
  unfold zero_or_more at h
  split at h
  · simp_all
  · simp_all
  · rename_i input' results heq
    simp only [Option.some.injEq, Except.ok.injEq, Prod.mk.injEq] at h
    exact h.1 ▸
      (maybeFuel_good (one_or_more fuel p) (one_or_more_good fuel p hp)
        i input' results heq).1

/-! ## Claim theorems -/

/-- Claim C7: `take_until_byte(q)` succeeds on every input; when the first
byte satisfying `q` sits at index `k` the value is `i[0..k]` and the
remaining input is `i[k..]` (starting at the matched byte); when no byte
satisfies `q` the value is all of `i` and the remaining input is empty. -/
theorem claim_C7 (q : Nat → Bool) (i : ParseInput) :
    (∃ out, take_until_byte q i = .ok out) ∧
    (∀ k, (∀ b ∈ i.take k, q b = false) →
      (∃ b t, i.drop k = b :: t ∧ q b = true) →
      take_until_byte q i = .ok (i.drop k, i.take k)) ∧
    ((∀ b ∈ i, q b = false) → take_until_byte q i = .ok ([], i)) := by
  refine ⟨?_, fun k hpre hk => ?_, fun h => ?_⟩
  · unfold take_until_byte
    cases firstIdx? q i <;> simp
  · simp [take_until_byte, firstIdx?_eq_some q i k hpre hk]
  · simp [take_until_byte, firstIdx?_eq_none q i h]

/-- Witness for C7 at concrete inputs. -/
theorem claim_C7_witness :
    take_until_byte (fun b => b == 1) [0, 1, 2] = .ok ([1, 2], [0]) ∧
    take_until_byte (fun b => b == 9) [0, 1, 2] = .ok ([], [0, 1, 2]) :=
  ⟨(claim_C7 (fun b => b == 1) [0, 1, 2]).2.1 1 (by decide) ⟨1, [2], rfl, rfl⟩,
   (claim_C7 (fun b => b == 9) [0, 1, 2]).2.2 (by decide)⟩

/-- Counterexample to C1 as stated: with the predicate matching byte `1` on
input `[0, 1, 2]`, the last matching byte sits at index 1, so the claim
predicts value `[2]` (trailing suffix after the byte) and remaining input
`[0, 1]` (up to and including the byte); the code instead produces value
`[0]` and remaining input `[1, 2]`. -/
theorem claim_C1_counterexample :
    rtake_until_byte (fun b => b == 1) [0, 1, 2] = .ok ([1, 2], [0]) ∧
    rtake_until_byte (fun b => b == 1) [0, 1, 2] ≠ .ok ([0, 1], [2]) := by
  refine ⟨rfl, fun h => ?_⟩
  have h2 :=
    (show rtake_until_byte (fun b => b == 1) [0, 1, 2] = .ok ([1, 2], [0]) from rfl).symm.trans h
  simp at h2

/-- Claim C1 (amended): `rtake_until_byte(q)` always succeeds; when the last
byte satisfying `q` sits at index `k`, the value is the prefix `i[0..k]`
before that byte and the remaining input is `i[k..]` (the matched byte and
the trailing suffix); when no byte satisfies `q` the value is all of `i` and
the remaining input is empty; `rtake_until_byte_1(q)` fails exactly when
that value is empty. -/
theorem claim_C1_amended (q : Nat → Bool) (i : ParseInput) :
    (∃ out, rtake_until_byte q i = .ok out) ∧
    (∀ k, (∃ b t, i.drop k = b :: t ∧ q b = true) →
      (∀ b ∈ i.drop (k + 1), q b = false) →
      rtake_until_byte q i = .ok (i.drop k, i.take k) ∧
      (rtake_until_byte_1 q i = .error "did not consume 1 byte" ↔ k = 0) ∧
      (0 < k → rtake_until_byte_1 q i = .ok (i.drop k, i.take k))) ∧
    ((∀ b ∈ i, q b = false) →
      rtake_until_byte q i = .ok ([], i) ∧
      (rtake_until_byte_1 q i = .error "did not consume 1 byte" ↔ i = [])) := by
  refine ⟨?_, fun k hk hpost => ?_, fun h => ?_⟩
  · unfold rtake_until_byte
    cases rfindIdx? q i <;> simp
  · have hr : rtake_until_byte q i = .ok (i.drop k, i.take k) := by
      simp [rtake_until_byte, rfindIdx?_eq_some q i k hk hpost]
    have hne : i ≠ [] := by
      intro hnil
      obtain ⟨b, t, hbt, _⟩ := hk
      simp [hnil] at hbt
    refine ⟨hr, ?_, fun hkpos => ?_⟩
    · rw [rtake_until_byte_1, hr]
      rcases Nat.eq_zero_or_pos k with hk0 | hkpos
      · simp [hk0]
      · have : i.take k ≠ [] := by
          simp [List.take_eq_nil_iff, hne]
          omega
        simp [List.isEmpty_iff, this]
        omega
    · have : i.take k ≠ [] := by
        simp [List.take_eq_nil_iff, hne]
        omega
      rw [rtake_until_byte_1, hr]
      simp [List.isEmpty_iff, this]
  · have hr : rtake_until_byte q i = .ok ([], i) := by
      simp [rtake_until_byte, rfindIdx?_eq_none q i h]
    refine ⟨hr, ?_⟩
    rw [rtake_until_byte_1, hr]
    rcases eq_or_ne i [] with hnil | hne
    · simp [hnil]
    · simp [List.isEmpty_iff, hne]

/-- Witness for the amended C1 at concrete inputs. -/
theorem claim_C1_witness :
    rtake_until_byte (fun b => b == 1) [7, 1, 2] = .ok ([1, 2], [7]) ∧
    rtake_until_byte_1 (fun b => b == 1) [7, 1, 2] = .ok ([1, 2], [7]) ∧
    rtake_until_byte (fun b => b == 1) [0, 2] = .ok ([], [0, 2]) :=
  ⟨((claim_C1_amended (fun b => b == 1) [7, 1, 2]).2.1 1 ⟨1, [2], rfl, rfl⟩ (by decide)).1,
   ((claim_C1_amended (fun b => b == 1) [7, 1, 2]).2.1 1 ⟨1, [2], rfl, rfl⟩ (by decide)).2.2
     (by decide),
   ((claim_C1_amended (fun b => b == 1) [0, 2]).2.2 (by decide)).1⟩

/-- Claim C2: `take(n)` fails when `n = 0` (on every input) and when `n`
exceeds the input length; for `0 < n ≤ L` it succeeds with the first `n`
bytes of the input as the value and the suffix starting at offset `n` as the
remaining input, consuming exactly `n` bytes. -/
theorem claim_C2 (n : Nat) (i : ParseInput) :
    (n = 0 → take n i = .error "take(cnt) cannot have cnt == 0") ∧
    (i.length < n → take n i = .error "take(cnt) not enough bytes") ∧
    (0 < n → n ≤ i.length →
      take n i = .ok (i.drop n, i.take n) ∧
      (i.take n).length = n ∧
      i.take n ++ i.drop n = i ∧
      (i.drop n).length = i.length - n) := by
  refine ⟨fun h => by simp [take, h], fun h => ?_, fun h1 h2 => ?_⟩
  · have hn : n ≠ 0 := by omega
    simp [take, hn, h]
  · have hn : n ≠ 0 := by omega
    have hlt : ¬ i.length < n := by omega
    refine ⟨by simp [take, hn, hlt], ?_, List.take_append_drop n i, i.length_drop n⟩
    simpa using List.length_take_of_le h2

/-- Witness for C2 at concrete inputs. -/
theorem claim_C2_witness :
    take 2 [5, 6, 7] = .ok ([7], [5, 6]) ∧
    take 0 [5, 6, 7] = .error "take(cnt) cannot have cnt == 0" ∧
    take 4 [5, 6, 7] = .error "take(cnt) not enough bytes" :=
  ⟨((claim_C2 2 [5, 6, 7]).2.2 (by decide) (by decide)).1,
   (claim_C2 0 [5, 6, 7]).1 rfl,
   (claim_C2 4 [5, 6, 7]).2.1 (by decide)⟩

/-- Claim C5: `maybe(p)` succeeds with `none` and the exact original input
when `p` fails, and passes a success of `p` through wrapped in `some`. -/
theorem claim_C5 (p : Parser T) (i : ParseInput) :
    (∀ e, p i = .error e → maybe p i = .ok (i, none)) ∧
    (∀ r v, p i = .ok (r, v) → maybe p i = .ok (r, some v)) :=
  ⟨fun e he => by simp [maybe, he], fun r v h => by simp [maybe, h]⟩

/-- Witness for C5 at concrete inputs. -/
theorem claim_C5_witness :
    maybe (take 1) [] = .ok ([], none) ∧
    maybe (take 1) [4, 5] = .ok ([5], some [4]) :=
  ⟨(claim_C5 (take 1) []).1 _ rfl, (claim_C5 (take 1) [4, 5]).2 _ _ rfl⟩

/-- Claim C6: `not(p)` fails with reason `"parser succeeded"` when `p`
succeeds and succeeds with `()` and the original input when `p` fails;
`peek(p)` propagates failures of `p`, and on success of `p` returns the same
value with the original input — neither consumes input on success. -/
theorem claim_C6 (p : Parser T) (i : ParseInput) :
    (∀ r v, p i = .ok (r, v) →
      Parsing.not p i = .error "parser succeeded" ∧ peek p i = .ok (i, v)) ∧
    (∀ e, p i = .error e →
      Parsing.not p i = .ok (i, ()) ∧ peek p i = .error e) :=
  ⟨fun r v h => ⟨by simp [Parsing.not, h], by simp [peek, h]⟩,
   fun e he => ⟨by simp [Parsing.not, he], by simp [peek, he]⟩⟩

/-- Witness for C6 at concrete inputs. -/
theorem claim_C6_witness :
    Parsing.not (take 1) [4, 5] = .error "parser succeeded" ∧
    peek (take 1) [4, 5] = .ok ([4, 5], [4]) ∧
    Parsing.not (take 1) [] = .ok ([], ()) :=
  ⟨((claim_C6 (take 1) [4, 5]).1 _ _ rfl).1,
   ((claim_C6 (take 1) [4, 5]).1 _ _ rfl).2,
   ((claim_C6 (take 1) []).2 _ rfl).1⟩

/-- Claim C10: `bytes([])` fails with reason `"Empty input"` on the empty
input, and on every non-empty input succeeds with an empty value and the
input unchanged (zero bytes consumed): the empty-input check precedes the
length and prefix-comparison checks. -/
theorem claim_C10 (i : ParseInput) :
    (i = [] → Parsing.bytes [] i = .error "Empty input") ∧
    (i ≠ [] → Parsing.bytes [] i = .ok (i, [])) := by
  refine ⟨fun h => by subst h; rfl, fun h => ?_⟩
  simp [Parsing.bytes, h, List.isPrefixOf]

/-- Witness for C10 at concrete inputs. -/
theorem claim_C10_witness :
    Parsing.bytes [] [] = .error "Empty input" ∧
    Parsing.bytes [] [9, 9] = .ok ([9, 9], []) :=
  ⟨(claim_C10 []).1 rfl, (claim_C10 [9, 9]).2 (by decide)⟩

theorem one_or_more_ok_ne_nil (fuel : Nat) (p : Parser T) (i r : ParseInput)
    (vs : List T) (h : one_or_more fuel p i = some (.ok (r, vs))) : vs ≠ [] := by
  unfold one_or_more at h
  split at h
  · simp_all
  · rename_i next results heq
    split at h
    · simp_all
    · rename_i hres
      simp only [Option.some.injEq, Except.ok.injEq, Prod.mk.injEq] at h
      intro hnil
      exact hres (by rw [h.2, hnil]; rfl)

/-- Claim C3: `one_or_more(p)(i)` fails exactly when `zero_or_more(p)(i)`
succeeds with an empty sequence and the input unchanged; whenever
`one_or_more` succeeds, `zero_or_more` reports the identical (non-empty)
sequence and identical remaining input; and when the shared internal loop
does not terminate within the given fuel, neither does the other parser. -/
theorem claim_C3 (fuel : Nat) (p : Parser T) (i : ParseInput) :
    ((∃ e, one_or_more fuel p i = some (.error e)) ↔
      zero_or_more fuel p i = some (.ok (i, ([] : List T)))) ∧
    (∀ r vs, one_or_more fuel p i = some (.ok (r, vs)) →
      vs ≠ [] ∧ zero_or_more fuel p i = some (.ok (r, vs))) ∧
    (one_or_more fuel p i = none → zero_or_more fuel p i = none) := by
  have key : ∀ r vs, one_or_more fuel p i = some (.ok (r, vs)) →
      zero_or_more fuel p i = some (.ok (r, vs)) := by
    intro r vs h
    simp [zero_or_more, maybeFuel, h]
  refine ⟨⟨?_, ?_⟩,
    fun r vs h => ⟨one_or_more_ok_ne_nil fuel p i r vs h, key r vs h⟩,
    fun h => by simp [zero_or_more, maybeFuel, h]⟩
  · rintro ⟨e, he⟩
    simp [zero_or_more, maybeFuel, he]
  · intro hz
    rcases ho : one_or_more fuel p i with _ | x
    · simp [zero_or_more, maybeFuel, ho] at hz
    · rcases x with e | ⟨r, vs⟩
      · exact ⟨e, rfl⟩
      · have h2 := (key r vs ho).symm.trans hz
        simp only [Option.some.injEq, Except.ok.injEq, Prod.mk.injEq] at h2
        exact absurd h2.2 (one_or_more_ok_ne_nil fuel p i r vs ho)

/-- Witness for C3 at concrete inputs. -/
theorem claim_C3_witness :
    zero_or_more 10 (byte 7) [8] = some (.ok ([8], [])) ∧
    zero_or_more 10 (byte 7) [7, 7, 8] = some (.ok ([8], [7, 7])) :=
  ⟨(claim_C3 10 (byte 7) [8]).1.mp ⟨"Parser failed to suceed once", rfl⟩,
   ((claim_C3 10 (byte 7) [7, 7, 8]).2.1 [8] [7, 7] rfl).2⟩

/-- Claim C4: the suffix invariant — every primitive parser of the library
satisfies `Good` (on success the remaining input is a byte-identical suffix
of the argument, of length at most the argument's), and every combinator
preserves it (the pass-through combinators need their argument parsers to
satisfy it; `not`, `peek`, `take_while` and `take_while_1` satisfy it for
arbitrary argument parsers since they restore or slice the original input). -/
theorem claim_C4 (p : Parser T) (hp : Good p) (p1 : Parser T1) (hp1 : Good p1)
    (p2 : Parser T2) (hp2 : Good p2) (p3 : Parser T3) (hp3 : Good p3)
    (f : T → U) (n : Nat) (bs : List Nat) (b : Nat) (q : Nat → Bool)
    (fuel : Nat) :
    Good empty ∧ Good not_empty ∧ Good (take n) ∧ Good (Parsing.bytes bs) ∧
    Good (byte b) ∧ Good (take_until_byte q) ∧ Good (take_until_byte_1 q) ∧
    Good (rtake_until_byte q) ∧ Good (rtake_until_byte_1 q) ∧
    Good (Parsing.not p) ∧ Good (peek p) ∧ Good (maybe p) ∧ Good (map p f) ∧
    Good (fully_consumed p) ∧ Good (prefixed p1 p2) ∧ Good (suffixed p1 p2) ∧
    Good (divided p1 p2 p3) ∧ GoodFuel (take_while fuel p) ∧
    GoodFuel (take_while_1 fuel p) ∧ GoodFuel (one_or_more fuel p) ∧
    GoodFuel (zero_or_more fuel p) :=
  ⟨empty_good, not_empty_good, take_good n, bytes_good bs, byte_good b,
   take_until_byte_good q, take_until_byte_1_good q, rtake_until_byte_good q,
   rtake_until_byte_1_good q, not_good p, peek_good p, maybe_good p hp,
   map_good p f hp, fully_consumed_good p hp, prefixed_good p1 p2 hp1 hp2,
   suffixed_good p1 p2 hp1 hp2, divided_good p1 p2 p3 hp1 hp2 hp3,
   take_while_good fuel p, take_while_1_good fuel p,
   one_or_more_good fuel p hp, zero_or_more_good fuel p hp⟩

/-- Witness for C4: concrete suffix facts extracted from the invariant. -/
theorem claim_C4_witness :
    (([8] : ParseInput) <:+ [7, 7, 8] ∧
      ([8] : ParseInput).length ≤ ([7, 7, 8] : ParseInput).length) ∧
    (([9] : ParseInput) <:+ [1, 9] ∧
      ([9] : ParseInput).length ≤ ([1, 9] : ParseInput).length) := by
  have h := claim_C4 (byte 7) (byte_good 7) (take 1) (take_good 1) (take 1)
    (take_good 1) (take 1) (take_good 1) id 2 [1] 7 (fun x => x == 1) 5
  obtain ⟨-, -, -, hbytes, -, -, -, -, -, -, -, -, -, -, -, -, -, -, -,
    hoom, -⟩ := h
  exact ⟨hoom [7, 7, 8] [8] [7, 7] rfl, hbytes [1, 9] [9] [1] rfl⟩

theorem ifchain_ne_error (k n : Nat) (e : ParseError)
    (a b c : ParseInput × ParseInput) :
    (if k = n then some (Except.ok a) else
      if k = 0 then some (Except.ok b) else
        (some (Except.ok c) : Option (ParseResult ParseInput))) ≠
      some (.error e) := by
  split_ifs <;> simp

theorem ifchain_isSome (k n : Nat) (a b c : ParseInput × ParseInput) :
    (if k = n then some (Except.ok a) else
      if k = 0 then some (Except.ok b) else
        (some (Except.ok c) : Option (ParseResult ParseInput))).isSome = true := by
  split_ifs <;> rfl

theorem ifresults_isSome (results : List T) (next : ParseInput) :
    (if results.isEmpty then
        some (Except.error "Parser failed to suceed once") else
      (some (Except.ok (next, results)) : Option (ParseResult (List T)))).isSome =
      true := by
  split_ifs <;> rfl

/-- Claim C8: `take_while(p)` fails exactly on the empty input; on non-empty
input with a failing first probe it succeeds with an empty value and the
input unchanged; and `take_while_1(p)` succeeds exactly when `take_while(p)`
succeeds with a non-empty value, with the identical split. -/
theorem claim_C8 (fuel : Nat) (p : Parser T) (i : ParseInput) :
    ((∃ e, take_while fuel p i = some (.error e)) ↔ i = []) ∧
    (0 < fuel → i ≠ [] →
      ∀ e, p i = .error e → take_while fuel p i = some (.ok (i, []))) ∧
    (∀ r v, take_while_1 fuel p i = some (.ok (r, v)) ↔
      (take_while fuel p i = some (.ok (r, v)) ∧ v ≠ [])) := by
  refine ⟨⟨?_, ?_⟩, ?_, ?_⟩
  · rintro ⟨e, he⟩
    by_contra hne
    unfold take_while at he
    rw [if_neg (by simpa [List.isEmpty_iff] using hne)] at he
    rcases hl : take_while_loop p i fuel 0 with _ | k
    · rw [hl] at he
      exact Option.noConfusion he
    · rw [hl] at he
      exact ifchain_ne_error k i.length e ([], i) (i, []) (i.drop k, i.take k) he
  · intro h
    exact ⟨"Empty input", by simp [take_while, h]⟩
  · intro hfuel hne e he
    obtain ⟨f, rfl⟩ : ∃ f, fuel = f + 1 := ⟨fuel - 1, by omega⟩
    have hlen : 0 < i.length := List.length_pos.mpr hne
    have hloop : take_while_loop p i (f + 1) 0 = some 0 := by
      unfold take_while_loop
      rw [if_pos hlen]
      simp only [List.drop_zero]
      rw [he]
    have h0 : ¬((0 : Nat) = i.length) := by omega
    unfold take_while
    simp [List.isEmpty_iff, hne, hloop, h0]
  · intro r v
    constructor
    · intro h
      unfold take_while_1 at h
      split at h
      · simp_all
      · simp_all
      · rename_i i1 v1 heq
        split at h
        · simp_all
        · rename_i hval
          simp only [Option.some.injEq, Except.ok.injEq, Prod.mk.injEq] at h
          refine ⟨by rw [← h.1, ← h.2]; exact heq, ?_⟩
          intro hnil
          exact hval (by rw [h.2, hnil]; rfl)
    · rintro ⟨htw, hv⟩
      unfold take_while_1
      rw [htw]
      simp [List.isEmpty_iff, hv]

/-- Witness for C8 at concrete inputs. -/
theorem claim_C8_witness :
    (∃ e, take_while 5 (byte 7) [] = some (.error e)) ∧
    take_while 5 (byte 7) [1, 2] = some (.ok ([1, 2], [])) ∧
    take_while_1 5 (byte 1) [1, 1, 2] = some (.ok ([2], [1, 1])) :=
  ⟨(claim_C8 5 (byte 7) []).1.mpr rfl,
   (claim_C8 5 (byte 7) [1, 2]).2.1 (by omega) (by decide) "Wrong byte" rfl,
   ((claim_C8 5 (byte 1) [1, 1, 2]).2.2 [2] [1, 1]).mpr ⟨rfl, by decide⟩⟩

theorem one_or_more_loop_total (p : Parser T) (hp : StrictProgress p) :
    ∀ fuel input acc, input.length < fuel →
      one_or_more_loop p fuel input acc ≠ none := by
  intro fuel
  induction fuel with
  | zero => intro input acc h; omega
  | succ fuel ih =>
      intro input acc h
      unfold one_or_more_loop
      split
      · rename_i input' value heq
        exact ih input' _ (by have := hp input input' value heq; omega)
      · simp

theorem take_while_loop_total (p : Parser T) (hp : StrictProgress p)
    (input : ParseInput) :
    ∀ fuel k, input.length - k < fuel →
      take_while_loop p input fuel k ≠ none := by
  intro fuel
  induction fuel with
  | zero => intro k h; omega
  | succ fuel ih =>
      intro k h
      unfold take_while_loop
      split
      · rename_i hk
        split
        · rename_i remaining value heq
          apply ih
          have hlt := hp (input.drop k) remaining value heq
          rw [List.length_drop] at hlt
          omega
        · simp
      · simp

theorem one_or_more_loop_diverges (fuel : Nat) :
    ∀ (input : ParseInput) (acc : List Unit),
      one_or_more_loop (fun s => .ok (s, ())) fuel input acc = none := by
  induction fuel with
  | zero => intro input acc; rfl
  | succ fuel ih => intro input acc; exact ih input (acc ++ [()])

theorem take_while_loop_diverges (input : ParseInput) (fuel : Nat) :
    ∀ k, k < input.length →
      take_while_loop (fun s => (.ok (s, ()) : ParseResult Unit)) input fuel k =
        none := by
  induction fuel with
  | zero => intro k hk; rfl
  | succ fuel ih =>
      intro k hk
      unfold take_while_loop
      rw [if_pos hk]
      have harg : k + ((input.length - k) - (input.drop k).length) = k := by
        rw [List.length_drop]
        omega
      show take_while_loop _ input fuel
        (k + ((input.length - k) - (input.drop k).length)) = none
      rw [harg]
      exact ih k hk

theorem byte_progress (b : Nat) : StrictProgress (byte b) := by
  intro i r v h
  unfold byte at h
  split at h
  · simp_all
  · rename_i hne
    split at h
    · simp only [Except.ok.injEq, Prod.mk.injEq] at h
      have hnil : i ≠ [] := by simpa [List.isEmpty_iff] using hne
      have hlen : 0 < i.length := List.length_pos.mpr hnil
      rw [← h.1]
      rw [List.length_drop]
      omega
    · simp_all

/-- Claim C9: for an inner parser making strict progress (each success
strictly shrinks the input), the loops of `take_while` and `one_or_more`
terminate on every finite input — fuel `len(i) + 1` always suffices; without
this precondition they need not terminate: the parser that succeeds while
consuming zero bytes loops forever (the model returns `none` for every
amount of fuel). -/
theorem claim_C9 (p : Parser T) (hp : StrictProgress p) (i : ParseInput) :
    (take_while (i.length + 1) p i).isSome = true ∧
    (one_or_more (i.length + 1) p i).isSome = true ∧
    (∀ fuel j, j ≠ [] →
      take_while fuel (fun s => (.ok (s, ()) : ParseResult Unit)) j = none) ∧
    (∀ fuel j,
      one_or_more fuel (fun s => (.ok (s, ()) : ParseResult Unit)) j = none) := by
  refine ⟨?_, ?_, ?_, ?_⟩
  · unfold take_while
    split
    · rfl
    · rcases hl : take_while_loop p i (i.length + 1) 0 with _ | k
      · exact absurd hl (take_while_loop_total p hp i (i.length + 1) 0 (by omega))
      · exact ifchain_isSome k i.length ([], i) (i, []) (i.drop k, i.take k)
  · unfold one_or_more
    rcases hl : one_or_more_loop p (i.length + 1) i [] with _ | ⟨next, results⟩
    · exact absurd hl (one_or_more_loop_total p hp (i.length + 1) i [] (by omega))
    · exact ifresults_isSome results next
  · intro fuel j hne
    unfold take_while
    rw [if_neg (by simpa [List.isEmpty_iff] using hne)]
    rw [take_while_loop_diverges j fuel 0 (List.length_pos.mpr hne)]
  · intro fuel j
    unfold one_or_more
    rw [one_or_more_loop_diverges fuel j []]

/-- Witness for C9 at concrete inputs. -/
theorem claim_C9_witness :
    (take_while 3 (byte 7) [7, 8]).isSome = true ∧
    (one_or_more 3 (byte 7) [7, 8]).isSome = true ∧
    take_while 2 (fun s => (.ok (s, ()) : ParseResult Unit)) [4] = none ∧
    one_or_more 2 (fun s => (.ok (s, ()) : ParseResult Unit)) [4] = none := by
  have h := claim_C9 (byte 7) (byte_progress 7) [7, 8]
  exact ⟨h.1, h.2.1, h.2.2.1 2 [4] (by decide), h.2.2.2 2 [4]⟩

end Parsing
